import Mathlib

/-!
# Verification of the ai-prompt-manager storage layer

Shallow embedding of `src/lib/storage.ts` (chunking, reconstruction, save/load
orchestration, quota fallback, search, Notion sync, import merge) together with
the data model of `src/types.ts`.

Modelling conventions:
* A JS runtime prompt object is one structure `Prompt`; fields that may be
  `undefined` at runtime (`content` on a metadata shell, `tags`, `chunkCount`,
  `originalSize`) are `Option`s, `none` standing for `undefined`.
* `new Blob([JSON.stringify(prompt)]).size` is embedded as `promptJsonBytes`,
  an arithmetic account of the UTF-8 byte length of `JSON.stringify(prompt)`
  with keys in the declaration order of the `Prompt` interface
  (`id, title, content, tags, createdAt, updatedAt, chunkCount, originalSize`),
  `undefined` fields omitted, and standard JSON string escaping.
  The source gate `promptSizeKB <= 7` compares `bytes / 1024` (an exact
  IEEE-754 computation for these magnitudes) with `7`, which is equivalent to
  `bytes ≤ 7 * 1024`; the embedding uses the byte comparison directly.
* JS strings are embedded as Lean `String` (character = Unicode scalar value);
  `content.slice(i, i + 3000)` becomes a take/drop split of the character list.
* Asynchronous storage callbacks are embedded as pure functions from the
  stored state (and from the outcomes of the backend operations, which are
  passed in as parameters) to the resulting state / traces.
-/

namespace PromptManager

/-! ## Data model (`src/types.ts`) -/

/-- The `Prompt` interface of `src/types.ts`, as the JS runtime object:
optional / possibly-`undefined` fields are `Option`s.  `content` is optional
here because the persisted metadata shell of a chunked prompt sets it to
`undefined`; `originalSize` (a fractional KB count in JS) is a rational. -/
structure Prompt where
  id : String
  title : String
  content : Option String
  tags : Option (List String)
  createdAt : Nat
  updatedAt : Nat
  chunkCount : Option Nat
  originalSize : Option ℚ
deriving DecidableEq

/-- `SyncStatus` of `src/types.ts`. -/
structure SyncStatus where
  lastSynced : Option Nat
  inProgress : Bool
  error : Option String
deriving DecidableEq

/-- `NotionConfig` of `src/types.ts`. -/
structure NotionConfig where
  apiKey : String
  pageId : String
deriving DecidableEq

/-! ## Blob size estimator

`new Blob([JSON.stringify(prompt)]).size`: the UTF-8 byte length of the JSON
serialization, computed field by field. -/

/-- Number of UTF-8 bytes `JSON.stringify` emits for one character occurring
inside a JSON string literal: `"` and `\` become two-character escapes, the
control characters with short escapes (`\b \t \n \f \r`) become two
characters, any other control character below U+0020 becomes a six-character
`\u00XX` escape, and everything else is emitted verbatim in UTF-8. -/
def jsonEscapedBytes (c : Char) : Nat :=
  if c = '"' ∨ c = '\\' then 2
  else if c = '\x08' ∨ c = '\x09' ∨ c = '\x0a' ∨ c = '\x0c' ∨ c = '\x0d' then 2
  else if c.toNat < 0x20 then 6
  else c.utf8Size

/-- UTF-8 byte length of the JSON string literal for `s` (two quotes plus the
escaped characters). -/
def jsonStringBytes (s : String) : Nat :=
  2 + (s.data.map jsonEscapedBytes).sum

/-- UTF-8 byte length of the JSON array literal for a list of strings
(brackets, items, commas). -/
def jsonArrayBytes (ts : List String) : Nat :=
  2 + (ts.map jsonStringBytes).sum + (ts.length - 1)

/-- Byte length of a serialized natural number (decimal digits). -/
def natBytes (n : Nat) : Nat := (toString n).length

/-- Fractional decimal digits of `rem / den`, by long division; `fuel` bounds
the number of digits (every rational arising here is `bytes / 1024`, whose
expansion terminates within 10 digits, so the fuel is never exhausted). -/
def fracDigits : Nat → Nat → Nat → List Char
  | 0, _, _ => []
  | fuel + 1, rem, den =>
    if rem = 0 then []
    else Char.ofNat (48 + rem * 10 / den) :: fracDigits fuel (rem * 10 % den) den

/-- The decimal string JS prints for the rational `q` (exact finite decimal
expansion; for the dyadic rationals `bytes / 1024` produced by the size
estimator this coincides with JS float formatting). -/
def ratDecimalString (q : ℚ) : String :=
  let sign := if q < 0 then "-" else ""
  let n := q.num.natAbs
  let ip := n / q.den
  let fr := fracDigits 30 (n % q.den) q.den
  if fr.isEmpty then sign ++ toString ip
  else sign ++ toString ip ++ "." ++ String.mk fr

/-- Byte length of a serialized rational (ASCII decimal). -/
def ratBytes (q : ℚ) : Nat := (ratDecimalString q).length

/-- The serialized sizes of the key/value pairs `JSON.stringify` emits for a
prompt, in interface declaration order, with `undefined` fields omitted.
Each present field costs `key length + 3` (two quotes and a colon) plus the
serialized value. -/
def promptFieldBytes (p : Prompt) : List Nat :=
  ([ some (2 + 3 + jsonStringBytes p.id),
     some (5 + 3 + jsonStringBytes p.title),
     p.content.map (fun c => 7 + 3 + jsonStringBytes c),
     p.tags.map (fun ts => 4 + 3 + jsonArrayBytes ts),
     some (9 + 3 + natBytes p.createdAt),
     some (9 + 3 + natBytes p.updatedAt),
     p.chunkCount.map (fun n => 10 + 3 + natBytes n),
     p.originalSize.map (fun q => 12 + 3 + ratBytes q) ] : List (Option Nat)).filterMap id

/-- `new Blob([JSON.stringify(prompt)]).size`: braces plus fields plus the
commas between them. -/
def promptJsonBytes (p : Prompt) : Nat :=
  2 + (promptFieldBytes p).sum + ((promptFieldBytes p).length - 1)

/-! ## Chunker / Reconstructor (`chunkPrompt`, `reconstructPrompt`) -/

/-- `CHUNK_SIZE_CHARS` of `storage.ts`. -/
def CHUNK_SIZE_CHARS : Nat := 3000

/-- `MAX_PROMPT_SIZE_KB` of `storage.ts`, scaled to bytes (`7 KB`). -/
def MAX_PROMPT_SIZE_BYTES : Nat := 7 * 1024

/-- The loop `for (let i = 0; i < content.length; i += CHUNK_SIZE_CHARS)
chunks.push(content.slice(i, i + CHUNK_SIZE_CHARS))`, as a fuel-driven
take/drop recursion on the character list (the fuel `l.length` always
suffices since each step consumes at least one character). -/
def chunksOfCharsAux : Nat → List Char → List (List Char)
  | 0, _ => []
  | _ + 1, [] => []
  | fuel + 1, c :: cs =>
    (c :: cs).take CHUNK_SIZE_CHARS :: chunksOfCharsAux fuel ((c :: cs).drop CHUNK_SIZE_CHARS)

/-- Split a content string into successive slices of `CHUNK_SIZE_CHARS`
characters (the last slice may be shorter). -/
def chunkContent (s : String) : List String :=
  (chunksOfCharsAux s.data.length s.data).map String.mk

/-- `chunkPrompt` of `storage.ts`: below or at the size threshold return
`(null, [])`; otherwise split the content and build the metadata shell with
`content` removed, `chunkCount` the number of fragments and `originalSize`
the size in KB. -/
def chunkPrompt (p : Prompt) : Option Prompt × List String :=
  if promptJsonBytes p ≤ MAX_PROMPT_SIZE_BYTES then (none, [])
  else
    let chunks := chunkContent (p.content.getD "")
    (some { p with
              content := none,
              chunkCount := some chunks.length,
              originalSize := some ((promptJsonBytes p : ℚ) / 1024) }, chunks)

/-- `reconstructPrompt` of `storage.ts`: join the fragments back into
`content` and clear the two storage-layer fields. -/
def reconstructPrompt (metadata : Prompt) (chunks : List String) : Prompt :=
  { metadata with
      content := some (String.join chunks),
      chunkCount := none,
      originalSize := none }

/-! ## Record store: load (`getPrompts` / `processPrompts`) -/

/-- The sentinel content substituted when fragments are missing or
incomplete. -/
def errorSentinel : String := "[Error: Content chunks missing]"

/-- One step of `processPrompts` in `getPrompts`: a stored entry with a
positive `chunkCount` is reconstructed from the fragments found under its id;
on a missing or length-mismatched fragment list the entry is returned with
its content replaced by the sentinel (the spread `{ ...prompt, content }`
keeps every other field of the shell); any other entry is returned as-is. -/
def loadEntry (chunks : List (String × List String)) (p : Prompt) : Prompt :=
  match p.chunkCount with
  | some n =>
    if 0 < n then
      match chunks.lookup p.id with
      | some cs =>
        if cs.length = n then reconstructPrompt p cs
        else { p with content := some errorSentinel }
      | none => { p with content := some errorSentinel }
    else p
  | none => p

/-- The body of `processPrompts`: reconstruct every stored entry. -/
def processPromptsPure (saved : List Prompt) (chunks : List (String × List String)) :
    List Prompt :=
  saved.map (loadEntry chunks)

/-! ## Record store: save (`savePrompts`) -/

/-- The logical unit `dataToSave` that `savePrompts` writes: the combined
prompt list (regular prompts followed by metadata shells), the storage-type
flag, the derived tag index and the fragment map `promptChunks`. -/
structure StoredState where
  prompts : List Prompt
  storageType : String
  tags : List String
  chunks : List (String × List String)
deriving DecidableEq

/-- JS-object / JS-`Map` style insertion into an association list: an
existing key keeps its position and gets the new value, a new key is
appended. -/
def assocSet {α : Type} (m : List (String × α)) (k : String) (v : α) :
    List (String × α) :=
  if m.any (fun e => e.1 = k) then
    m.map (fun e => if e.1 = k then (k, v) else e)
  else m ++ [(k, v)]

/-- The tag extraction at the top of `savePrompts`: a JS `Set` filled by
iterating over all prompts' `tags`, read back in insertion order. -/
def collectTags (prompts : List Prompt) : List String :=
  prompts.foldl
    (fun acc p =>
      match p.tags with
      | some ts => ts.foldl (fun a t => if a.contains t then a else a ++ [t]) acc
      | none => acc)
    []

/-- Accumulator of the chunking pass in `savePrompts`: `regularPrompts`,
`chunkedPromptsMetadata` and `allChunks`. -/
structure SaveAcc where
  regular : List Prompt
  meta : List Prompt
  chunks : List (String × List String)
deriving DecidableEq

/-- One iteration of the partitioning loop of `savePrompts`: a prompt over
the size threshold is run through `chunkPrompt` and contributes its shell and
fragment entry only when `metadata` is non-null and at least one fragment was
produced; otherwise the prompt is stored whole. -/
def saveStep (acc : SaveAcc) (p : Prompt) : SaveAcc :=
  if MAX_PROMPT_SIZE_BYTES < promptJsonBytes p then
    match chunkPrompt p with
    | (some m, cs) =>
      if 0 < cs.length then
        { acc with meta := acc.meta ++ [m], chunks := assocSet acc.chunks p.id cs }
      else acc
    | (none, _) => acc
  else { acc with regular := acc.regular ++ [p] }

/-- The partitioning loop of `savePrompts` over the whole prompt list. -/
def savePartition (prompts : List Prompt) : SaveAcc :=
  prompts.foldl saveStep ⟨[], [], []⟩

/-- The `dataToSave` object assembled by `savePrompts` for a prompt list and
storage type. -/
def savePromptsData (prompts : List Prompt) (storageType : String) : StoredState :=
  let acc := savePartition prompts
  ⟨acc.regular ++ acc.meta, storageType, collectTags prompts, acc.chunks⟩

/-! ## Persistence adapter and the quota fallback of `savePrompts` -/

/-- The two physical backends (`chrome.storage.local` / `chrome.storage.sync`). -/
inductive Backend
  | storageLocal
  | storageSync
deriving DecidableEq

/-- `storageType === 'local' ? chrome.storage.local : chrome.storage.sync`. -/
def selectBackend (storageType : String) : Backend :=
  if storageType = "local" then Backend.storageLocal else Backend.storageSync

/-- `message.includes(pattern)`. -/
def strIncludes (s pat : String) : Bool :=
  decide (pat.data <:+: s.data)

/-- The quota test of `savePrompts` on the failure message:
`includes('QUOTA_BYTES') || includes('QUOTA_BYTES_PER_ITEM')`. -/
def isQuotaMessage (msg : String) : Bool :=
  strIncludes msg "QUOTA_BYTES" || strIncludes msg "QUOTA_BYTES_PER_ITEM"

/-- Result of a run of the write phase of `savePrompts`: the sequence of
`set` calls that were issued (backend and data written) and the settled
promise. -/
structure SaveTrace where
  writes : List (Backend × StoredState)
  outcome : Except String Unit

/-- The error message of the rejection when the local fallback also fails. -/
def quotaFallbackError : String :=
  "Storage quota exceeded. Please reduce prompt content size or clear some prompts."

/-- The write phase of `savePrompts`, with the backend responses passed in:
`primaryErr` is `chrome.runtime.lastError` of the first `set`, `fallbackErr`
that of the fallback `set` on `chrome.storage.local` (consulted only when the
fallback runs).  On a quota failure of a non-local save the identical data is
retried on the local backend; any other failure rejects with the original
error. -/
def savePromptsRun (data : StoredState) (storageType : String)
    (primaryErr fallbackErr : Option String) : SaveTrace :=
  let b := selectBackend storageType
  match primaryErr with
  | none => ⟨[(b, data)], Except.ok ()⟩
  | some msg =>
    if storageType ≠ "local" ∧ isQuotaMessage msg then
      match fallbackErr with
      | none => ⟨[(b, data), (Backend.storageLocal, data)], Except.ok ()⟩
      | some _ => ⟨[(b, data), (Backend.storageLocal, data)], Except.error quotaFallbackError⟩
    else ⟨[(b, data)], Except.error msg⟩

/-! ## Search (`searchPrompts`) -/

/-- `toLowerCase()` (ASCII case mapping). -/
def lowerStr (s : String) : String := String.mk (s.data.map Char.toLower)

/-- `trim()`: drop whitespace from both ends of the string (ASCII whitespace
suffices for the query strings considered here). -/
def jsTrim (s : String) : String :=
  String.mk (((s.data.dropWhile Char.isWhitespace).reverse.dropWhile
    Char.isWhitespace).reverse)

/-- The filter body of `searchPrompts`, after the early return: a record
fails if required tags are given and it has none of them, then matches if the
normalized query is empty or occurs in the lowercased title or content. -/
def searchMatches (normalizedQuery : String) (tags : List String) (p : Prompt) : Bool :=
  (if 0 < tags.length then
    match p.tags with
    | some pts => tags.any (fun t => pts.contains t)
    | none => false
  else true)
  && (if normalizedQuery ≠ "" then
        strIncludes (lowerStr p.title) normalizedQuery
          || strIncludes (lowerStr (p.content.getD "")) normalizedQuery
      else true)

/-- `searchPrompts` on an already loaded prompt list: empty query (falsy
string) and no tags returns the list unfiltered, otherwise the query is
lowercased and trimmed and the list is filtered. -/
def searchPromptsPure (query : String) (tags : List String) (prompts : List Prompt) :
    List Prompt :=
  if query = "" ∧ tags.length = 0 then prompts
  else
    let normalizedQuery := jsTrim (lowerStr query)
    prompts.filter (searchMatches normalizedQuery tags)

/-- The search predicate exactly as the claim states it (for comparison with
the code): the tag set is empty or the record has one of the required tags,
and the query is empty or is a case-insensitive substring of title or
content.  Note the raw query is used, with no trimming. -/
def specSearchMatches (query : String) (tags : List String) (p : Prompt) : Bool :=
  (tags.isEmpty || tags.any (fun t => (p.tags.getD []).contains t))
  && (query = "" || strIncludes (lowerStr p.title) (lowerStr query)
      || strIncludes (lowerStr (p.content.getD "")) (lowerStr query))

/-- The search predicate that the code actually implements, stated
standalone: as `specSearchMatches` but with the query lowercased and trimmed
before the emptiness test and the substring tests. -/
def trimmedSearchMatches (query : String) (tags : List String) (p : Prompt) : Bool :=
  (tags.isEmpty || tags.any (fun t => (p.tags.getD []).contains t))
  && (jsTrim (lowerStr query) = ""
      || strIncludes (lowerStr p.title) (jsTrim (lowerStr query))
      || strIncludes (lowerStr (p.content.getD "")) (jsTrim (lowerStr query)))

/-! ## Notion sync (`syncWithNotion`) -/

/-- A run of `syncWithNotion`, with the outcomes of the external calls passed
in: `config` is the stored Notion configuration, `notionResult` the outcome
of the remote exchange `notionSync(prompts)`, `saveResult` the outcome of
`savePrompts(syncedPrompts, "notion")`, `now` the timestamp taken on
success.  It returns the sequence of sync-status values written by
`updateSyncStatus` (each merges into the previous status, starting from
`s0`) and the settled promise.  An absent configuration throws before the
`try` block, so before any status update. -/
def syncWithNotionRun (config : Option NotionConfig) (s0 : SyncStatus)
    (notionResult : Except String (List Prompt)) (saveResult : Except String Unit)
    (now : Nat) : List SyncStatus × Except String (List Prompt) :=
  match config with
  | none => ([], Except.error "Notion is not configured")
  | some _ =>
    let s1 : SyncStatus := { s0 with inProgress := true, error := none }
    match notionResult with
    | Except.error e =>
      ([s1, { s1 with inProgress := false, error := some e }], Except.error e)
    | Except.ok syncedPrompts =>
      match saveResult with
      | Except.error e =>
        ([s1, { s1 with inProgress := false, error := some e }], Except.error e)
      | Except.ok _ =>
        ([s1, { s1 with lastSynced := some now, inProgress := false }],
         Except.ok syncedPrompts)

/-! ## Import (`importPromptsFromJson`) -/

/-- A successfully parsed import payload: either some non-array JSON value,
or an array whose elements are prompt-shaped objects (fields that the JSON
may omit are already `Option`s in `Prompt`; an absent `id`/`title` and an
empty one are indistinguishable to the validation, which only tests
falsiness, so both are embedded as `""`). -/
inductive ImportInput
  | notArray
  | array (elems : List Prompt)

/-- JS falsiness of an optional string (`undefined` or `""`). -/
def falsyStr : Option String → Bool
  | none => true
  | some s => s = ""

/-- The per-element validation of `importPromptsFromJson`:
`!prompt.id || !prompt.title || !prompt.content`. -/
def invalidElem (p : Prompt) : Bool :=
  p.id = "" || p.title = "" || falsyStr p.content

/-- `storageType` resolution in `processPrompts`: a falsy stored flag
defaults to `"local"`. -/
def loadStorageType (st : StoredState) : String :=
  if st.storageType = "" then "local" else st.storageType

/-- The merge of `importPromptsFromJson`: build a JS `Map` keyed by id from
the current prompts, overwrite/insert every imported prompt, and read the
values back in insertion order. -/
def importMerge (current imported : List Prompt) : List Prompt :=
  (imported.foldl (fun m p => assocSet m p.id p)
    (current.foldl (fun m p => assocSet m p.id p) [])).map (fun e => e.2)

/-- The key list of an association list. -/
def pKeys (m : List (String × Prompt)) : List String := m.map (fun e => e.1)

/-- Insert a list of prompts into a JS `Map` state, id-keyed, in order. -/
def assocFold (m : List (String × Prompt)) (l : List Prompt) : List (String × Prompt) :=
  l.foldl (fun m p => assocSet m p.id p) m

/-- The last prompt in `l` whose id is `k`, if any (the value a JS `Map`
holds at `k` after inserting all of `l`). -/
def lastAssign : List Prompt → String → Option Prompt
  | [], _ => none
  | p :: t, k =>
    match lastAssign t k with
    | some v => some v
    | none => if p.id = k then some p else none

/-- Store operations `importPromptsFromJson` can perform on the persisted
collection. -/
inductive StoreOp
  | read
  | write
deriving DecidableEq

/-- A run of `importPromptsFromJson` on an already parsed payload against
the persisted state: validation failures reject before any store operation
and leave the state unchanged; a valid array is merged into the loaded
collection and the merged list is saved under the current storage type.
Returns the store operations performed, the final persisted state and the
settled promise. -/
def importRun (input : ImportInput) (st : StoredState) :
    List StoreOp × StoredState × Except String (List Prompt) :=
  match input with
  | ImportInput.notArray =>
    ([], st, Except.error "Invalid format: Expected an array of prompts")
  | ImportInput.array elems =>
    match elems.findIdx? invalidElem with
    | some i =>
      ([], st,
       Except.error ("Invalid prompt format at index " ++ toString i ++
         ": Missing required fields (id, title, or content)"))
    | none =>
      let current := processPromptsPure st.prompts st.chunks
      let merged := importMerge current elems
      let st2 := savePromptsData merged (loadStorageType st)
      ([StoreOp.read, StoreOp.write], st2, Except.ok merged)

/-- A string of `n` repetitions of `'a'`; used to build concrete records
whose serialized size exceeds the chunking threshold. -/
def manyA (n : Nat) : String := String.mk (List.replicate n 'a')

/-- A concrete record whose serialized size exceeds the 7 KB threshold (a
7300-character title) with a small, nonempty content. -/
def bigPrompt : Prompt :=
  ⟨"big", manyA 7300, some "x", some ["X"], 0, 0, none, none⟩

/-- A concrete record over the size threshold whose content is the empty
string. -/
def bigEmptyPrompt : Prompt :=
  ⟨"bigempty", manyA 7300, some "", some ["Z"], 0, 0, none, none⟩

/-- A concrete small record. -/
def smallPrompt : Prompt :=
  ⟨"small", "a small title", some "some content", some ["Y"], 0, 0, none, none⟩

/-- An oversized record (7300-character title, one-character content) used in
the double-import counterexample. -/
def cexBig : Prompt := ⟨"b", manyA 7300, some "x", some ["X"], 0, 0, none, none⟩

/-- A small record with a different tag, used in the double-import
counterexample. -/
def cexSmall : Prompt := ⟨"s", "u", some "y", some ["Y"], 0, 0, none, none⟩

/-- The metadata shell `chunkPrompt` produces for `cexBig`. -/
def cexShell : Prompt :=
  ⟨"b", manyA 7300, none, some ["X"], 0, 0, some 1, some ((7376 : ℚ) / 1024)⟩

/-! # Supporting lemmas -/

theorem jsonStringBytes_manyA (n : Nat) : jsonStringBytes (manyA n) = 2 + n := by
  have ha : jsonEscapedBytes 'a' = 1 := by decide
  simp [jsonStringBytes, manyA, List.map_replicate, ha, List.sum_replicate]

theorem sum_jsonEscapedBytes_manyA (n : Nat) :
    (List.map jsonEscapedBytes (manyA n).data).sum = n := by
  have ha : jsonEscapedBytes 'a' = 1 := by decide
  simp [manyA, List.map_replicate, ha, List.sum_replicate]

theorem promptJsonBytes_bigPrompt : promptJsonBytes bigPrompt = 7378 := by
  simp [promptJsonBytes, promptFieldBytes, bigPrompt, jsonStringBytes,
    jsonArrayBytes, natBytes, sum_jsonEscapedBytes_manyA]
  decide

theorem promptJsonBytes_bigEmptyPrompt : promptJsonBytes bigEmptyPrompt = 7382 := by
  simp [promptJsonBytes, promptFieldBytes, bigEmptyPrompt, jsonStringBytes,
    jsonArrayBytes, natBytes, sum_jsonEscapedBytes_manyA]
  decide

theorem promptJsonBytes_smallPrompt_le :
    promptJsonBytes smallPrompt ≤ MAX_PROMPT_SIZE_BYTES := by decide

theorem chunksOfCharsAux_nil (fuel : Nat) : chunksOfCharsAux fuel [] = [] := by
  cases fuel <;> rfl

theorem chunksOfCharsAux_join (fuel : Nat) (l : List Char) (h : l.length ≤ fuel) :
    (chunksOfCharsAux fuel l).flatten = l := by
  induction fuel generalizing l with
  | zero =>
    have hl : l = [] := List.length_eq_zero.mp (Nat.le_zero.mp h)
    simp [hl, chunksOfCharsAux]
  | succ fuel ih =>
    cases l with
    | nil => simp [chunksOfCharsAux]
    | cons c cs =>
      rw [chunksOfCharsAux, List.flatten_cons, ih]
      · exact List.take_append_drop CHUNK_SIZE_CHARS (c :: cs)
      · have hchunk : CHUNK_SIZE_CHARS = 3000 := rfl
        simp only [List.length_drop, List.length_cons] at h ⊢
        omega

theorem chunksOfCharsAux_length_le (fuel : Nat) (l : List Char) :
    ∀ c ∈ chunksOfCharsAux fuel l, c.length ≤ CHUNK_SIZE_CHARS := by
  induction fuel generalizing l with
  | zero => simp [chunksOfCharsAux]
  | succ fuel ih =>
    cases l with
    | nil => simp [chunksOfCharsAux]
    | cons c cs =>
      intro x hx
      rw [chunksOfCharsAux] at hx
      rcases List.mem_cons.mp hx with h | h
      · subst h
        simp
      · exact ih _ x h

theorem chunksOfCharsAux_dropLast_length (fuel : Nat) (l : List Char) :
    ∀ c ∈ (chunksOfCharsAux fuel l).dropLast, c.length = CHUNK_SIZE_CHARS := by
  induction fuel generalizing l with
  | zero => simp [chunksOfCharsAux]
  | succ fuel ih =>
    cases l with
    | nil => simp [chunksOfCharsAux]
    | cons c cs =>
      intro x hx
      rw [chunksOfCharsAux] at hx
      rcases hrest : chunksOfCharsAux fuel ((c :: cs).drop CHUNK_SIZE_CHARS) with _ | ⟨r, rs⟩
      · rw [hrest] at hx
        simp at hx
      · rw [hrest, List.dropLast_cons_of_ne_nil (by simp)] at hx
        rcases List.mem_cons.mp hx with h | h
        · subst h
          have hne : (c :: cs).drop CHUNK_SIZE_CHARS ≠ [] := by
            intro hnil
            rw [hnil, chunksOfCharsAux_nil] at hrest
            exact List.cons_ne_nil _ _ hrest.symm
          have hlt : CHUNK_SIZE_CHARS < (c :: cs).length := by
            by_contra hle
            exact hne (List.drop_eq_nil_of_le (Nat.le_of_not_lt hle))
          simp only [List.length_cons] at hlt
          simp
          omega
        · have := ih ((c :: cs).drop CHUNK_SIZE_CHARS)
          rw [hrest] at this
          exact this x (by simpa using h)

theorem string_mk_append (a b : List Char) :
    String.mk a ++ String.mk b = String.mk (a ++ b) := rfl

theorem string_join_map_mk_aux (L : List (List Char)) (acc : String) :
    List.foldl (fun r s => r ++ s) acc (L.map String.mk) =
      String.mk (acc.data ++ L.flatten) := by
  induction L generalizing acc with
  | nil => simp
  | cons a L ih =>
    simp only [List.map_cons, List.foldl_cons]
    rw [ih]
    simp [List.append_assoc]

theorem string_join_map_mk (L : List (List Char)) :
    String.join (L.map String.mk) = String.mk L.flatten := by
  rw [String.join, string_join_map_mk_aux]
  rfl

theorem chunkContent_join (s : String) : String.join (chunkContent s) = s := by
  rw [chunkContent, string_join_map_mk,
    chunksOfCharsAux_join s.data.length s.data (Nat.le_refl _)]

theorem chunkContent_length_le (s : String) :
    ∀ f ∈ chunkContent s, f.length ≤ CHUNK_SIZE_CHARS := by
  intro f hf
  rcases List.mem_map.mp hf with ⟨c, hc, rfl⟩
  exact chunksOfCharsAux_length_le _ _ c hc

theorem dropLast_map {α β : Type} (f : α → β) (l : List α) :
    (l.map f).dropLast = l.dropLast.map f := by
  induction l with
  | nil => rfl
  | cons a l ih =>
    cases l with
    | nil => rfl
    | cons b t => simp [List.dropLast_cons_of_ne_nil, ih]

theorem chunkContent_dropLast_length (s : String) :
    ∀ f ∈ (chunkContent s).dropLast, f.length = CHUNK_SIZE_CHARS := by
  intro f hf
  rw [chunkContent, dropLast_map] at hf
  rcases List.mem_map.mp hf with ⟨c, hc, rfl⟩
  exact chunksOfCharsAux_dropLast_length _ _ c hc

theorem chunkPrompt_over (p : Prompt) (c : String) (hc : p.content = some c)
    (hbig : MAX_PROMPT_SIZE_BYTES < promptJsonBytes p) :
    chunkPrompt p =
      (some { p with
                content := none,
                chunkCount := some (chunkContent c).length,
                originalSize := some ((promptJsonBytes p : ℚ) / 1024) },
       chunkContent c) := by
  rw [chunkPrompt, if_neg (Nat.not_le.mpr hbig), hc]
  rfl

/-! # Claim theorems -/

/-- Claim C6: for every record over the size threshold, `chunkPrompt` splits
the content into fragments of at most `CHUNK_SIZE_CHARS` characters, with
every fragment before the last exactly `CHUNK_SIZE_CHARS` long, whose
in-order concatenation is exactly the content, and whose count equals the
`chunkCount` recorded in the metadata shell. -/
theorem chunkPrompt_fragments_spec (p : Prompt) (c : String)
    (hc : p.content = some c)
    (hbig : MAX_PROMPT_SIZE_BYTES < promptJsonBytes p) :
    (∀ f ∈ (chunkPrompt p).2, f.length ≤ CHUNK_SIZE_CHARS) ∧
    (∀ f ∈ ((chunkPrompt p).2).dropLast, f.length = CHUNK_SIZE_CHARS) ∧
    String.join (chunkPrompt p).2 = c ∧
    ∃ m, (chunkPrompt p).1 = some m ∧ m.chunkCount = some (chunkPrompt p).2.length := by
  rw [chunkPrompt_over p c hc hbig]
  exact ⟨chunkContent_length_le c, chunkContent_dropLast_length c,
    chunkContent_join c, _, rfl, rfl⟩

/-- Witness for C6 at a concrete oversized record. -/
theorem chunkPrompt_fragments_spec_witness :
    bigPrompt.content = some "x" ∧
    MAX_PROMPT_SIZE_BYTES < promptJsonBytes bigPrompt ∧
    String.join (chunkPrompt bigPrompt).2 = "x" := by
  have hbig : MAX_PROMPT_SIZE_BYTES < promptJsonBytes bigPrompt := by
    rw [promptJsonBytes_bigPrompt]
    decide
  exact ⟨rfl, hbig, (chunkPrompt_fragments_spec bigPrompt "x" rfl hbig).2.2.1⟩

/-- Claim C1: for every domain record (content present, no storage-layer
fields) whose serialized size exceeds the threshold, reconstructing from the
output of chunking gives back the record, field for field. -/
theorem chunk_reconstruct_roundtrip (p : Prompt) (c : String)
    (hc : p.content = some c) (hcc : p.chunkCount = none)
    (hos : p.originalSize = none)
    (hbig : MAX_PROMPT_SIZE_BYTES < promptJsonBytes p) :
    (chunkPrompt p).1.map (fun m => reconstructPrompt m (chunkPrompt p).2) = some p := by
  rw [chunkPrompt_over p c hc hbig]
  obtain ⟨pid, ptitle, pcontent, ptags, pca, pua, pcc, pos⟩ := p
  simp only at hc hcc hos
  subst hc hcc hos
  simp [reconstructPrompt, chunkContent_join c]

/-- Witness for C1 at a concrete oversized record. -/
theorem chunk_reconstruct_roundtrip_witness :
    bigPrompt.content = some "x" ∧ bigPrompt.chunkCount = none ∧
    bigPrompt.originalSize = none ∧
    MAX_PROMPT_SIZE_BYTES < promptJsonBytes bigPrompt ∧
    (chunkPrompt bigPrompt).1.map
      (fun m => reconstructPrompt m (chunkPrompt bigPrompt).2) = some bigPrompt := by
  have hbig : MAX_PROMPT_SIZE_BYTES < promptJsonBytes bigPrompt := by
    rw [promptJsonBytes_bigPrompt]
    decide
  exact ⟨rfl, rfl, rfl, hbig,
    chunk_reconstruct_roundtrip bigPrompt "x" rfl rfl rfl hbig⟩

/-- Claim C3: a metadata shell whose declared `chunkCount` does not match the
fragments stored under its id (or whose fragments are absent) does not abort
the load: that record comes back with the error sentinel as content, and
every other record of the collection is still processed normally, in
place. -/
theorem load_degrades_mismatched_shell (xs ys : List Prompt)
    (m : List (String × List String)) (sh : Prompt) (n : Nat)
    (hn : sh.chunkCount = some n) (hpos : 0 < n)
    (hmis : ∀ cs, m.lookup sh.id = some cs → cs.length ≠ n) :
    processPromptsPure (xs ++ sh :: ys) m =
      processPromptsPure xs m ++
        ({ sh with content := some errorSentinel } :: processPromptsPure ys m) := by
  have hsh : loadEntry m sh = { sh with content := some errorSentinel } := by
    rw [loadEntry, hn]
    cases hlook : m.lookup sh.id with
    | none => simp [hpos]
    | some cs => simp [hpos, hlook, hmis cs hlook]
  simp [processPromptsPure, hsh]

/-- Witness for C3: a shell declaring three fragments while two are stored,
between two healthy records. -/
theorem load_degrades_mismatched_shell_witness :
    (∀ cs, ([("s", ["ab", "cd"])] : List (String × List String)).lookup "s" =
        some cs → cs.length ≠ 3) ∧
    processPromptsPure
        [⟨"p", "t", some "hi", none, 0, 0, none, none⟩,
         ⟨"s", "u", none, none, 0, 0, some 3, some 9⟩,
         ⟨"q", "v", some "yo", none, 0, 0, none, none⟩]
        [("s", ["ab", "cd"])] =
      [⟨"p", "t", some "hi", none, 0, 0, none, none⟩,
       ⟨"s", "u", some errorSentinel, none, 0, 0, some 3, some 9⟩,
       ⟨"q", "v", some "yo", none, 0, 0, none, none⟩] := by
  have hmis : ∀ cs, ([("s", ["ab", "cd"])] : List (String × List String)).lookup "s" =
      some cs → cs.length ≠ 3 := by decide
  refine ⟨hmis, ?_⟩
  have h := load_degrades_mismatched_shell
    [⟨"p", "t", some "hi", none, 0, 0, none, none⟩]
    [⟨"q", "v", some "yo", none, 0, 0, none, none⟩]
    [("s", ["ab", "cd"])]
    ⟨"s", "u", none, none, 0, 0, some 3, some 9⟩ 3 rfl (by decide) hmis
  simpa [processPromptsPure, loadEntry] using h

/-- Counterexample for C4: on fragment mismatch the degraded sentinel record
returned by the load still carries the shell's `chunkCount` and
`originalSize` (the spread keeps them), so not every record returned by the
load hides the storage-layer fields. -/
theorem load_exposes_internal_fields_cex :
    ¬ (∀ r ∈ processPromptsPure [⟨"s", "u", none, none, 0, 0, some 1, some 8⟩] [],
        r.chunkCount = none ∧ r.originalSize = none) := by
  decide

/-- Claim C4 as amended: every record the load returns that was either
stored whole without the storage-layer fields or reconstructed from a
matching fragment sequence exposes neither `chunkCount` nor `originalSize`;
only the degraded sentinel records keep the shell's fields. -/
theorem load_internal_fields_hidden (m : List (String × List String)) (p : Prompt)
    (h : (p.chunkCount = none ∧ p.originalSize = none) ∨
      (∃ n cs, p.chunkCount = some n ∧ 0 < n ∧ m.lookup p.id = some cs ∧
        cs.length = n)) :
    (loadEntry m p).chunkCount = none ∧ (loadEntry m p).originalSize = none := by
  rcases h with ⟨h1, h2⟩ | ⟨n, cs, hn, hpos, hlook, hlen⟩
  · rw [loadEntry, h1]
    exact ⟨h1, h2⟩
  · rw [loadEntry, hn]
    simp [hpos, hlook, hlen, reconstructPrompt]

/-- Witness for C4 as amended: a whole record and a reconstructed record. -/
theorem load_internal_fields_hidden_witness :
    (loadEntry [("s", ["hi"])] ⟨"s", "u", none, none, 0, 0, some 1, some 8⟩).chunkCount
        = none ∧
    (loadEntry [] ⟨"p", "t", some "hi", none, 0, 0, none, none⟩).originalSize = none := by
  refine ⟨(load_internal_fields_hidden [("s", ["hi"])]
      ⟨"s", "u", none, none, 0, 0, some 1, some 8⟩
      (Or.inr ⟨1, ["hi"], rfl, by decide, by decide, rfl⟩)).1,
    (load_internal_fields_hidden [] ⟨"p", "t", some "hi", none, 0, 0, none, none⟩
      (Or.inl ⟨rfl, rfl⟩)).2⟩

/-- Claim C2: for any prompt data and any non-local storage type, a
quota-exceeded failure of the selected compact backend's write causes the
identical data to be retried on the local backend, and the save resolves
when that retry succeeds; when the storage type is local or the failure is
not quota-related, no fallback write is attempted and the original error is
the rejection. -/
theorem savePrompts_quota_fallback (data : StoredState) (storageType msg : String) :
    (storageType ≠ "local" → isQuotaMessage msg = true →
      savePromptsRun data storageType (some msg) none =
        ⟨[(selectBackend storageType, data), (Backend.storageLocal, data)],
          Except.ok ()⟩) ∧
    ((storageType = "local" ∨ isQuotaMessage msg = false) →
      ∀ fallbackErr, savePromptsRun data storageType (some msg) fallbackErr =
        ⟨[(selectBackend storageType, data)], Except.error msg⟩) := by
  constructor
  · intro hst hq
    simp only [savePromptsRun]
    simp [hst, hq]
  · intro h fallbackErr
    simp only [savePromptsRun]
    rcases h with h | h
    · simp [h, selectBackend]
    · simp [h]

/-- Witness for C2: a quota failure on a notion-type save falls back to the
local backend and resolves; a non-quota failure rejects with the original
message without a second write. -/
theorem savePrompts_quota_fallback_witness :
    savePromptsRun ⟨[], "notion", [], []⟩ "notion"
        (some "QUOTA_BYTES_PER_ITEM quota exceeded") none =
      ⟨[(Backend.storageSync, ⟨[], "notion", [], []⟩),
        (Backend.storageLocal, ⟨[], "notion", [], []⟩)], Except.ok ()⟩ ∧
    savePromptsRun ⟨[], "notion", [], []⟩ "notion" (some "network down") none =
      ⟨[(Backend.storageSync, ⟨[], "notion", [], []⟩)],
        Except.error "network down"⟩ := by
  constructor
  · have h := (savePrompts_quota_fallback ⟨[], "notion", [], []⟩ "notion"
      "QUOTA_BYTES_PER_ITEM quota exceeded").1 (by decide) (by decide)
    simpa [selectBackend] using h
  · have h := (savePrompts_quota_fallback ⟨[], "notion", [], []⟩ "notion"
      "network down").2 (Or.inr (by decide)) none
    simpa [selectBackend] using h

/-- Counterexample for C7: with the whitespace query `" "` (nonempty, so the
claim requires a substring match) and no tags, the code trims the query to
the empty string and returns a record containing no space at all, while the
claim's predicate excludes it. -/
theorem search_claim_cex :
    searchPromptsPure " " [] [⟨"a", "abc", some "xyz", none, 0, 0, none, none⟩] ≠
      List.filter (specSearchMatches " " [])
        [⟨"a", "abc", some "xyz", none, 0, 0, none, none⟩] := by
  decide

theorem searchMatches_eq_trimmed (query : String) (tags : List String) (p : Prompt) :
    searchMatches (jsTrim (lowerStr query)) tags p = trimmedSearchMatches query tags p := by
  rw [searchMatches, trimmedSearchMatches]
  congr 1
  · cases tags with
    | nil => simp
    | cons t ts =>
      cases hpt : p.tags with
      | none => simp [hpt]
      | some pts => simp [hpt]
  · by_cases hq : jsTrim (lowerStr query) = "" <;> simp [hq]

/-- Claim C7 as amended: `searchPrompts` returns exactly the records where
(the tag set is empty or the record has at least one required tag) and (the
lowercased, trimmed query is empty or is a substring of the lowercased title
or content); with empty query and tag set the collection is returned
unfiltered. -/
theorem search_filter_characterization (query : String) (tags : List String)
    (prompts : List Prompt) :
    searchPromptsPure query tags prompts =
      prompts.filter (trimmedSearchMatches query tags) := by
  rw [searchPromptsPure]
  by_cases h : query = "" ∧ tags.length = 0
  · rw [if_pos h]
    refine (List.filter_eq_self.mpr ?_).symm
    intro p hp
    rw [trimmedSearchMatches, h.1]
    have htags : tags = [] := List.length_eq_zero.mp h.2
    have hq : jsTrim (lowerStr "") = "" := by decide
    simp [htags, hq]
  · rw [if_neg h]
    exact List.filter_congr (fun p _ => searchMatches_eq_trimmed query tags p)

/-- Counterexample for C8: with no Notion configuration the sync fails, but
the failure is thrown before the `try` block, so no sync-status value at all
is written — in particular none carrying the error message with `inProgress`
cleared, contradicting the claim that every failure updates the status. -/
theorem sync_unconfigured_no_status_cex :
    (syncWithNotionRun none ⟨none, false, none⟩ (Except.ok []) (Except.ok ()) 0).2 =
      Except.error "Notion is not configured" ∧
    ¬ ∃ s ∈ (syncWithNotionRun none ⟨none, false, none⟩ (Except.ok [])
          (Except.ok ()) 0).1,
        s.error = some "Notion is not configured" ∧ s.inProgress = false := by
  constructor
  · rfl
  · intro ⟨s, hs, _⟩
    simp [syncWithNotionRun] at hs

/-- Claim C8 as amended: once a configuration is present, any failure of the
remote exchange or of persisting its result updates the stored sync status
with the error message and `inProgress` cleared to `false` before the error
is re-raised; an absent configuration throws without touching the sync
status. -/
theorem sync_failure_updates_status (cfg : NotionConfig) (s0 : SyncStatus)
    (notionResult : Except String (List Prompt)) (saveResult : Except String Unit)
    (now : Nat) (e : String)
    (h : notionResult = Except.error e ∨
      ∃ ps, notionResult = Except.ok ps ∧ saveResult = Except.error e) :
    syncWithNotionRun (some cfg) s0 notionResult saveResult now =
      ([{ s0 with inProgress := true, error := none },
        { s0 with inProgress := false, error := some e }], Except.error e) := by
  rcases h with h | ⟨ps, hok, herr⟩
  · subst h
    rfl
  · subst hok herr
    rfl

/-- Witness for C8 as amended: a failing remote exchange and a failing
persistence step both record the error in the status trail. -/
theorem sync_failure_updates_status_witness :
    syncWithNotionRun (some ⟨"key", "page"⟩) ⟨some 5, false, some "old"⟩
        (Except.error "Notion API error") (Except.ok ()) 7 =
      ([⟨some 5, true, none⟩, ⟨some 5, false, some "Notion API error"⟩],
        Except.error "Notion API error") ∧
    syncWithNotionRun (some ⟨"key", "page"⟩) ⟨none, false, none⟩
        (Except.ok []) (Except.error "save failed") 7 =
      ([⟨none, true, none⟩, ⟨none, false, some "save failed"⟩],
        Except.error "save failed") := by
  exact ⟨sync_failure_updates_status ⟨"key", "page"⟩ ⟨some 5, false, some "old"⟩
      (Except.error "Notion API error") (Except.ok ()) 7 "Notion API error"
      (Or.inl rfl),
    sync_failure_updates_status ⟨"key", "page"⟩ ⟨none, false, none⟩
      (Except.ok []) (Except.error "save failed") 7 "save failed"
      (Or.inr ⟨[], rfl, rfl⟩)⟩

/-- Claim C5: an import payload that is not an array, or an array in which
some element lacks a non-empty id, title or content, is rejected before any
read or write of the persisted store, which is left unchanged. -/
theorem import_invalid_rejected_before_store (input : ImportInput) (st : StoredState)
    (h : input = ImportInput.notArray ∨
      ∃ es, input = ImportInput.array es ∧ es.any invalidElem = true) :
    (importRun input st).1 = [] ∧ (importRun input st).2.1 = st ∧
    ∃ e, (importRun input st).2.2 = Except.error e := by
  rcases h with h | ⟨es, hes, hinv⟩
  · subst h
    exact ⟨rfl, rfl, _, rfl⟩
  · subst hes
    rcases hfind : es.findIdx? invalidElem with _ | i
    · rw [List.findIdx?_eq_none_iff] at hfind
      rcases List.any_eq_true.mp hinv with ⟨p, hp, hpp⟩
      rw [hfind p hp] at hpp
      cases hpp
    · simp [importRun, hfind]

/-- Witness for C5: an element with an empty id is rejected and the store is
untouched. -/
theorem import_invalid_rejected_before_store_witness :
    ([⟨"", "t", some "c", none, 0, 0, none, none⟩] : List Prompt).any invalidElem
        = true ∧
    (importRun (ImportInput.array [⟨"", "t", some "c", none, 0, 0, none, none⟩])
        ⟨[smallPrompt], "local", ["Y"], []⟩).1 = [] ∧
    (importRun (ImportInput.array [⟨"", "t", some "c", none, 0, 0, none, none⟩])
        ⟨[smallPrompt], "local", ["Y"], []⟩).2.1 = ⟨[smallPrompt], "local", ["Y"], []⟩ := by
  have h := import_invalid_rejected_before_store
    (ImportInput.array [⟨"", "t", some "c", none, 0, 0, none, none⟩])
    ⟨[smallPrompt], "local", ["Y"], []⟩
    (Or.inr ⟨[⟨"", "t", some "c", none, 0, 0, none, none⟩], rfl, by decide⟩)
  exact ⟨by decide, h.1, h.2.1⟩

theorem chunkContent_empty : chunkContent "" = [] := rfl

theorem saveStep_dropped (acc : SaveAcc) (p : Prompt) (hc : p.content = some "")
    (hbig : MAX_PROMPT_SIZE_BYTES < promptJsonBytes p) :
    saveStep acc p = acc := by
  rw [saveStep, if_pos hbig, chunkPrompt_over p "" hc hbig]
  simp [chunkContent_empty]

theorem chunkPrompt_meta_id (p m : Prompt) (cs : List String)
    (h : chunkPrompt p = (some m, cs)) : m.id = p.id := by
  by_cases hle : promptJsonBytes p ≤ MAX_PROMPT_SIZE_BYTES
  · rw [chunkPrompt, if_pos hle] at h
    cases h
  · simp only [chunkPrompt, if_neg hle, Prod.mk.injEq, Option.some.injEq] at h
    rw [← h.1]

theorem loadEntry_id (m : List (String × List String)) (p : Prompt) :
    (loadEntry m p).id = p.id := by
  rw [loadEntry]
  cases p.chunkCount with
  | none => rfl
  | some n =>
    by_cases hpos : 0 < n
    · simp only [if_pos hpos]
      cases m.lookup p.id with
      | none => rfl
      | some cs =>
        by_cases hlen : cs.length = n <;> simp [hlen, reconstructPrompt]
    · simp [hpos]

theorem saveStep_cases (acc : SaveAcc) (p : Prompt) :
    saveStep acc p = acc ∨
    saveStep acc p = { acc with regular := acc.regular ++ [p] } ∨
    ∃ m cs, m.id = p.id ∧
      saveStep acc p =
        { acc with meta := acc.meta ++ [m], chunks := assocSet acc.chunks p.id cs } := by
  rw [saveStep]
  by_cases hbig : MAX_PROMPT_SIZE_BYTES < promptJsonBytes p
  · rw [if_pos hbig]
    rcases hchunk : chunkPrompt p with ⟨md, cs⟩
    cases md with
    | none => exact Or.inl rfl
    | some mm =>
      by_cases hcs : 0 < cs.length
      · exact Or.inr (Or.inr ⟨mm, cs, chunkPrompt_meta_id p mm cs hchunk,
          by simp [hcs]⟩)
      · exact Or.inl (by simp [hcs])
  · rw [if_neg hbig]
    exact Or.inr (Or.inl rfl)

theorem saveFold_ids (l : List Prompt) (acc : SaveAcc) (e : Prompt)
    (he : e ∈ (l.foldl saveStep acc).regular ++ (l.foldl saveStep acc).meta) :
    e ∈ acc.regular ++ acc.meta ∨ ∃ q ∈ l, e.id = q.id := by
  induction l generalizing acc with
  | nil => exact Or.inl he
  | cons p l ih =>
    rcases ih (saveStep acc p) he with hstep | ⟨q, hq, hql⟩
    · rcases saveStep_cases acc p with hs | hs | ⟨mm, cs, hmid, hs⟩
      · rw [hs] at hstep
        exact Or.inl hstep
      · rw [hs] at hstep
        simp only [List.mem_append, List.mem_singleton] at hstep
        rcases hstep with (h | h) | h
        · exact Or.inl (List.mem_append.mpr (Or.inl h))
        · exact Or.inr ⟨p, List.mem_cons_self _ _, by rw [h]⟩
        · exact Or.inl (List.mem_append.mpr (Or.inr h))
      · rw [hs] at hstep
        simp only [List.mem_append, List.mem_singleton] at hstep
        rcases hstep with h | (h | h)
        · exact Or.inl (List.mem_append.mpr (Or.inl h))
        · exact Or.inl (List.mem_append.mpr (Or.inr h))
        · exact Or.inr ⟨p, List.mem_cons_self _ _, by rw [h, hmid]⟩
    · exact Or.inr ⟨q, List.mem_cons_of_mem p hq, hql⟩

/-- Claim C10: a prompt over the size threshold whose content is the empty
string produces zero fragments, so `savePrompts` stores neither the record
nor a shell nor fragments for it — the saved prompt list and fragment map
are the same as if the record were absent — and a subsequent load returns no
record with its id. -/
theorem oversized_empty_content_dropped (p : Prompt) (xs ys : List Prompt)
    (storageType : String)
    (hc : p.content = some "") (hbig : MAX_PROMPT_SIZE_BYTES < promptJsonBytes p) :
    (savePromptsData (xs ++ p :: ys) storageType).prompts =
      (savePromptsData (xs ++ ys) storageType).prompts ∧
    (savePromptsData (xs ++ p :: ys) storageType).chunks =
      (savePromptsData (xs ++ ys) storageType).chunks ∧
    ((∀ q ∈ xs ++ ys, q.id ≠ p.id) →
      ∀ r ∈ processPromptsPure (savePromptsData (xs ++ p :: ys) storageType).prompts
          (savePromptsData (xs ++ p :: ys) storageType).chunks,
        r.id ≠ p.id) := by
  have hpart : savePartition (xs ++ p :: ys) = savePartition (xs ++ ys) := by
    rw [savePartition, savePartition, List.foldl_append, List.foldl_append,
      List.foldl_cons, saveStep_dropped _ p hc hbig]
  refine ⟨by rw [savePromptsData, savePromptsData, hpart],
    by rw [savePromptsData, savePromptsData, hpart], ?_⟩
  intro hids r hr
  rcases List.mem_map.mp hr with ⟨e, he, rfl⟩
  rw [loadEntry_id]
  have he2 : e ∈ (savePartition (xs ++ ys)).regular ++ (savePartition (xs ++ ys)).meta := by
    rw [← hpart]
    exact he
  rcases saveFold_ids (xs ++ ys) ⟨[], [], []⟩ e he2 with habs | ⟨q, hq, hqe⟩
  · simp at habs
  · rw [hqe]
    exact hids q hq

/-- Witness for C10: a concrete oversized record with empty content
disappears from the saved data. -/
theorem oversized_empty_content_dropped_witness :
    bigEmptyPrompt.content = some "" ∧
    MAX_PROMPT_SIZE_BYTES < promptJsonBytes bigEmptyPrompt ∧
    (savePromptsData [bigEmptyPrompt, smallPrompt] "local").prompts =
      (savePromptsData [smallPrompt] "local").prompts ∧
    (savePromptsData [bigEmptyPrompt, smallPrompt] "local").chunks =
      (savePromptsData [smallPrompt] "local").chunks := by
  have hbig : MAX_PROMPT_SIZE_BYTES < promptJsonBytes bigEmptyPrompt := by
    rw [promptJsonBytes_bigEmptyPrompt]
    decide
  have h := oversized_empty_content_dropped bigEmptyPrompt [] [smallPrompt] "local"
    rfl hbig
  exact ⟨rfl, hbig, h.1, h.2.1⟩

/-! ## Association-list lemmas for the JS Map semantics of the import merge -/

theorem mem_pKeys_iff_any (m : List (String × Prompt)) (k : String) :
    m.any (fun e => e.1 = k) = true ↔ k ∈ pKeys m := by
  simp [pKeys, List.any_eq_true]

theorem pKeys_assocSet (m : List (String × Prompt)) (k : String) (v : Prompt) :
    pKeys (assocSet m k v) = if k ∈ pKeys m then pKeys m else pKeys m ++ [k] := by
  rw [assocSet]
  by_cases h : k ∈ pKeys m
  · rw [if_pos ((mem_pKeys_iff_any m k).mpr h), if_pos h]
    simp only [pKeys, List.map_map]
    apply List.map_congr_left
    intro e he
    by_cases h1 : e.1 = k
    · simp [h1]
    · simp [h1]
  · rw [if_neg (fun hc => h ((mem_pKeys_iff_any m k).mp hc)), if_neg h]
    simp [pKeys]

theorem lookup_cons (k k1 : String) (v1 : Prompt) (t : List (String × Prompt)) :
    List.lookup k ((k1, v1) :: t) = if k = k1 then some v1 else List.lookup k t := by
  simp only [List.lookup]
  by_cases h : k = k1
  · rw [if_pos h, beq_iff_eq.mpr h]
  · rw [if_neg h, beq_eq_false_iff_ne.mpr h]

theorem lookup_not_mem (m : List (String × Prompt)) (k : String)
    (h : k ∉ pKeys m) : m.lookup k = none := by
  induction m with
  | nil => rfl
  | cons e t ih =>
    have h1 : ¬ k = e.1 := fun hc => h (by simp [pKeys, hc])
    have h2 : k ∉ pKeys t := fun hc => h (by simp [pKeys] at hc ⊢; exact Or.inr hc)
    obtain ⟨k1, v1⟩ := e
    rw [lookup_cons, if_neg h1]
    exact ih h2

theorem lookup_append_assoc (m1 m2 : List (String × Prompt)) (k : String) :
    (m1 ++ m2).lookup k =
      match m1.lookup k with
      | some v => some v
      | none => m2.lookup k := by
  induction m1 with
  | nil => rfl
  | cons e t ih =>
    obtain ⟨k1, v1⟩ := e
    by_cases h1 : k = k1
    · simp [lookup_cons, h1]
    · simp only [List.cons_append]
      rw [lookup_cons, lookup_cons, if_neg h1, if_neg h1]
      exact ih

theorem lookup_assocSet_self (m : List (String × Prompt)) (k : String) (v : Prompt) :
    (assocSet m k v).lookup k = some v := by
  rw [assocSet]
  by_cases h : k ∈ pKeys m
  · rw [if_pos ((mem_pKeys_iff_any m k).mpr h)]
    induction m with
    | nil => simp [pKeys] at h
    | cons e t ih =>
      obtain ⟨k1, v1⟩ := e
      by_cases h1 : k1 = k
      · simp only [List.map_cons, if_pos h1]
        rw [lookup_cons, if_pos rfl]
      · simp only [List.map_cons]
        rw [if_neg h1, lookup_cons, if_neg (fun hc : k = k1 => h1 hc.symm)]
        have h2 : k ∈ pKeys t := by
          rcases (by simpa [pKeys] using h : k = k1 ∨ ∃ x, (k, x) ∈ t) with hc | ⟨x, hx⟩
          · exact absurd hc.symm h1
          · exact List.mem_map.mpr ⟨(k, x), hx, rfl⟩
        exact ih h2
  · rw [if_neg (fun hc => h ((mem_pKeys_iff_any m k).mp hc)),
      lookup_append_assoc, lookup_not_mem m k h]
    simp [List.lookup]

theorem lookup_assocSet_other (m : List (String × Prompt)) (k k' : String) (v : Prompt)
    (hkk : k' ≠ k) : (assocSet m k v).lookup k' = m.lookup k' := by
  rw [assocSet]
  by_cases h : m.any (fun e => e.1 = k) = true
  · rw [if_pos h]
    clear h
    induction m with
    | nil => rfl
    | cons e t ih =>
      obtain ⟨k1, v1⟩ := e
      by_cases h1 : k1 = k
      · simp only [List.map_cons]
        rw [if_pos h1, lookup_cons, lookup_cons, if_neg hkk,
          if_neg (fun hc : k' = k1 => hkk (h1 ▸ hc))]
        exact ih
      · simp only [List.map_cons]
        rw [if_neg h1, lookup_cons, lookup_cons]
        by_cases h2 : k' = k1
        · rw [if_pos h2, if_pos h2]
        · rw [if_neg h2, if_neg h2]
          exact ih
  · rw [if_neg h, lookup_append_assoc]
    cases hl : m.lookup k' with
    | some v1 => rfl
    | none => simp [lookup_cons, hkk]

theorem pKeys_nodup_assocSet (m : List (String × Prompt)) (k : String) (v : Prompt)
    (h : (pKeys m).Nodup) : (pKeys (assocSet m k v)).Nodup := by
  rw [pKeys_assocSet]
  by_cases hk : k ∈ pKeys m
  · rw [if_pos hk]
    exact h
  · rw [if_neg hk]
    simp [List.nodup_append, h, hk]

theorem entries_id_assocSet (m : List (String × Prompt)) (p : Prompt)
    (h : ∀ e ∈ m, e.2.id = e.1) : ∀ e ∈ assocSet m p.id p, e.2.id = e.1 := by
  intro e he
  rw [assocSet] at he
  by_cases hany : m.any (fun e => e.1 = p.id) = true
  · rw [if_pos hany] at he
    rcases List.mem_map.mp he with ⟨e0, he0, rfl⟩
    by_cases h1 : e0.1 = p.id
    · simp [h1]
    · simpa [h1] using h e0 he0
  · rw [if_neg hany] at he
    rcases List.mem_append.mp he with h1 | h1
    · exact h e h1
    · rcases List.mem_singleton.mp h1 with rfl
      rfl

theorem assocFold_nil (m : List (String × Prompt)) : assocFold m [] = m := rfl

theorem assocFold_cons (m : List (String × Prompt)) (p : Prompt) (l : List Prompt) :
    assocFold m (p :: l) = assocFold (assocSet m p.id p) l := rfl

theorem assocFold_append_list (m : List (String × Prompt)) (l1 l2 : List Prompt) :
    assocFold m (l1 ++ l2) = assocFold (assocFold m l1) l2 :=
  List.foldl_append ..

theorem importMerge_eq_assocFold (c i : List Prompt) :
    importMerge c i = (assocFold (assocFold [] c) i).map (fun e => e.2) := rfl

theorem pKeys_nodup_assocFold (m : List (String × Prompt)) (l : List Prompt)
    (h : (pKeys m).Nodup) : (pKeys (assocFold m l)).Nodup := by
  induction l generalizing m with
  | nil => exact h
  | cons p l ih => exact ih _ (pKeys_nodup_assocSet m p.id p h)

theorem entries_id_assocFold (m : List (String × Prompt)) (l : List Prompt)
    (h : ∀ e ∈ m, e.2.id = e.1) : ∀ e ∈ assocFold m l, e.2.id = e.1 := by
  induction l generalizing m with
  | nil => exact h
  | cons p l ih => exact ih _ (entries_id_assocSet m p h)

theorem mem_pKeys_assocFold_left (m : List (String × Prompt)) (l : List Prompt)
    (k : String) (h : k ∈ pKeys m) : k ∈ pKeys (assocFold m l) := by
  induction l generalizing m with
  | nil => exact h
  | cons p l ih =>
    refine ih _ ?_
    rw [pKeys_assocSet]
    by_cases hp : p.id ∈ pKeys m
    · rw [if_pos hp]
      exact h
    · rw [if_neg hp]
      exact List.mem_append.mpr (Or.inl h)

theorem mem_pKeys_assocFold_of_mem (m : List (String × Prompt)) (l : List Prompt)
    (p : Prompt) (h : p ∈ l) : p.id ∈ pKeys (assocFold m l) := by
  induction l generalizing m with
  | nil => cases h
  | cons q l ih =>
    rcases List.mem_cons.mp h with rfl | h
    · refine mem_pKeys_assocFold_left _ l p.id ?_
      rw [pKeys_assocSet]
      by_cases hp : p.id ∈ pKeys m
      · rw [if_pos hp]
        exact hp
      · rw [if_neg hp]
        exact List.mem_append.mpr (Or.inr (List.mem_singleton.mpr rfl))
    · exact ih _ h

theorem pKeys_assocFold_of_subset (m : List (String × Prompt)) (l : List Prompt)
    (h : ∀ p ∈ l, p.id ∈ pKeys m) : pKeys (assocFold m l) = pKeys m := by
  induction l generalizing m with
  | nil => rfl
  | cons p l ih =>
    rw [assocFold_cons, ih]
    · rw [pKeys_assocSet, if_pos (h p (List.mem_cons_self _ _))]
    · intro q hq
      rw [pKeys_assocSet, if_pos (h p (List.mem_cons_self _ _))]
      exact h q (List.mem_cons_of_mem p hq)

theorem lookup_assocFold (m : List (String × Prompt)) (l : List Prompt) (k : String) :
    (assocFold m l).lookup k =
      match lastAssign l k with
      | some v => some v
      | none => m.lookup k := by
  induction l generalizing m with
  | nil => rfl
  | cons p l ih =>
    rw [assocFold_cons, ih, lastAssign]
    cases lastAssign l k with
    | some v => rfl
    | none =>
      by_cases h1 : p.id = k
      · rw [if_pos h1, ← h1, lookup_assocSet_self]
      · rw [if_neg h1, lookup_assocSet_other m p.id k p (fun hc => h1 hc.symm)]

theorem lastAssign_append (l1 l2 : List Prompt) (k : String) :
    lastAssign (l1 ++ l2) k =
      match lastAssign l2 k with
      | some v => some v
      | none => lastAssign l1 k := by
  induction l1 with
  | nil =>
    simp only [List.nil_append]
    cases h : lastAssign l2 k <;> rfl
  | cons p t ih =>
    show (match lastAssign (t ++ l2) k with
          | some v => some v
          | none => if p.id = k then some p else none) = _
    rw [ih]
    cases h : lastAssign l2 k <;> rfl

theorem assoc_ext (m m' : List (String × Prompt)) (hk : pKeys m = pKeys m')
    (hnd : (pKeys m).Nodup) (hl : ∀ k, m.lookup k = m'.lookup k) : m = m' := by
  induction m generalizing m' with
  | nil =>
    cases m' with
    | nil => rfl
    | cons e t => cases hk
  | cons e t ih =>
    cases m' with
    | nil => cases hk
    | cons e' t' =>
      obtain ⟨k1, v1⟩ := e
      obtain ⟨k1', v1'⟩ := e'
      simp only [pKeys, List.map_cons] at hk
      obtain ⟨hkk, hkt⟩ := List.cons.injEq .. ▸ hk
      have hv : v1 = v1' := by
        have h1 := hl k1
        rw [lookup_cons, if_pos rfl, hkk, lookup_cons, if_pos rfl] at h1
        exact Option.some.inj h1
      have hnd2 : (pKeys t).Nodup := by
        simp only [pKeys, List.map_cons, List.nodup_cons] at hnd
        exact hnd.2
      have hnotin : k1 ∉ pKeys t := by
        simp only [pKeys, List.map_cons, List.nodup_cons] at hnd
        exact hnd.1
      have hlt : ∀ k, t.lookup k = t'.lookup k := by
        intro k
        by_cases hkeq : k = k1
        · subst hkeq
          have hnotin2 : k ∉ pKeys t' := by
            show k ∉ List.map (fun e => e.1) t'
            rw [← hkt]
            exact hnotin
          rw [lookup_not_mem t k hnotin, lookup_not_mem t' k hnotin2]
        · have h1 := hl k
          rw [lookup_cons, if_neg hkeq, lookup_cons,
            if_neg (fun hc => hkeq (hc.trans hkk.symm))] at h1
          exact h1
      rw [hkk, hv, ih t' (by simpa [pKeys] using hkt) hnd2 hlt]

theorem assocFold_rebuild (m m0 : List (String × Prompt))
    (hnd : (pKeys m0 ++ pKeys m).Nodup) (hid : ∀ e ∈ m, e.2.id = e.1) :
    assocFold m0 (m.map (fun e => e.2)) = m0 ++ m := by
  induction m generalizing m0 with
  | nil => simp [assocFold_nil]
  | cons e t ih =>
    obtain ⟨k, v⟩ := e
    have hvk : v.id = k := hid (k, v) (List.mem_cons_self _ _)
    have hpk : pKeys ((k, v) :: t) = k :: pKeys t := rfl
    rw [hpk] at hnd
    have hknot : k ∉ pKeys m0 := by
      rcases List.nodup_append.mp hnd with ⟨-, -, hdisj⟩
      intro hk
      exact hdisj hk (List.mem_cons_self _ _)
    have hset : assocSet m0 v.id v = m0 ++ [(k, v)] := by
      rw [assocSet,
        if_neg (fun hc => hknot (hvk ▸ (mem_pKeys_iff_any m0 v.id).mp hc)), hvk]
    simp only [List.map_cons, assocFold_cons, hset]
    have hnd2 : (pKeys (m0 ++ [(k, v)]) ++ pKeys t).Nodup := by
      have h1 : pKeys (m0 ++ [(k, v)]) = pKeys m0 ++ [k] := by
        simp [pKeys]
      rw [h1, List.append_assoc]
      simpa using hnd
    rw [ih (m0 ++ [(k, v)]) hnd2 (fun e he => hid e (List.mem_cons_of_mem _ he))]
    simp

theorem assocFold_self (c i : List Prompt) :
    assocFold (assocFold [] (c ++ i)) i = assocFold [] (c ++ i) := by
  have hnd : (pKeys (assocFold [] (c ++ i))).Nodup :=
    pKeys_nodup_assocFold [] _ (by simp [pKeys])
  apply assoc_ext
  · apply pKeys_assocFold_of_subset
    intro p hp
    exact mem_pKeys_assocFold_of_mem [] (c ++ i) p (List.mem_append.mpr (Or.inr hp))
  · exact pKeys_nodup_assocFold _ _ hnd
  · intro k
    rw [lookup_assocFold]
    cases hla : lastAssign i k with
    | none => rfl
    | some v =>
      have hMk : (assocFold [] (c ++ i)).lookup k = some v := by
        rw [lookup_assocFold, lastAssign_append, hla]
      rw [hMk]

theorem importMerge_idem (c i : List Prompt) :
    importMerge (importMerge c i) i = importMerge c i := by
  have hM : assocFold (assocFold [] c) i = assocFold [] (c ++ i) :=
    (assocFold_append_list [] c i).symm
  have hnd : (pKeys (assocFold [] (c ++ i))).Nodup :=
    pKeys_nodup_assocFold [] _ (by simp [pKeys])
  have hid : ∀ e ∈ assocFold [] (c ++ i), e.2.id = e.1 :=
    entries_id_assocFold [] _ (by simp)
  have hreb : assocFold []
      ((assocFold [] (c ++ i)).map (fun e => e.2)) = assocFold [] (c ++ i) := by
    have h := assocFold_rebuild (assocFold [] (c ++ i)) []
      (by simpa [pKeys] using hnd) hid
    simpa using h
  rw [importMerge_eq_assocFold c i, hM, importMerge_eq_assocFold, hreb,
    assocFold_self]

theorem mem_assocSet_values (m : List (String × Prompt)) (k : String) (v : Prompt)
    (e : String × Prompt) (he : e ∈ assocSet m k v) : e ∈ m ∨ e = (k, v) := by
  rw [assocSet] at he
  by_cases hany : m.any (fun e => e.1 = k) = true
  · rw [if_pos hany] at he
    rcases List.mem_map.mp he with ⟨e0, he0, rfl⟩
    by_cases h1 : e0.1 = k
    · rw [if_pos h1]
      exact Or.inr rfl
    · rw [if_neg h1]
      exact Or.inl he0
  · rw [if_neg hany] at he
    rcases List.mem_append.mp he with h1 | h1
    · exact Or.inl h1
    · exact Or.inr (List.mem_singleton.mp h1)

theorem mem_assocFold (m : List (String × Prompt)) (l : List Prompt)
    (e : String × Prompt) (he : e ∈ assocFold m l) : e ∈ m ∨ e.2 ∈ l := by
  induction l generalizing m with
  | nil => exact Or.inl he
  | cons p t ih =>
    rcases ih (assocSet m p.id p) he with h1 | h1
    · rcases mem_assocSet_values m p.id p e h1 with h2 | h2
      · exact Or.inl h2
      · rw [h2]
        exact Or.inr (List.mem_cons_self _ _)
    · exact Or.inr (List.mem_cons_of_mem _ h1)

theorem mem_importMerge (c i : List Prompt) (q : Prompt) (hq : q ∈ importMerge c i) :
    q ∈ c ∨ q ∈ i := by
  rw [importMerge_eq_assocFold] at hq
  rcases List.mem_map.mp hq with ⟨e, he, rfl⟩
  rcases mem_assocFold _ _ e he with h1 | h1
  · rcases mem_assocFold _ _ e h1 with h2 | h2
    · cases h2
    · exact Or.inl h2
  · exact Or.inr h1

theorem processPromptsPure_id (l : List Prompt) (m : List (String × List String))
    (h : ∀ p ∈ l, p.chunkCount = none) : processPromptsPure l m = l := by
  induction l with
  | nil => rfl
  | cons p t ih =>
    have h1 : loadEntry m p = p := by
      rw [loadEntry, h p (List.mem_cons_self _ _)]
    show loadEntry m p :: processPromptsPure t m = p :: t
    rw [h1, ih (fun q hq => h q (List.mem_cons_of_mem p hq))]

theorem saveFold_all_small (l : List Prompt) (acc : SaveAcc)
    (h : ∀ p ∈ l, promptJsonBytes p ≤ MAX_PROMPT_SIZE_BYTES) :
    l.foldl saveStep acc = { acc with regular := acc.regular ++ l } := by
  induction l generalizing acc with
  | nil => simp
  | cons p t ih =>
    rw [List.foldl_cons]
    have hstep : saveStep acc p = { acc with regular := acc.regular ++ [p] } := by
      rw [saveStep, if_neg (Nat.not_lt.mpr (h p (List.mem_cons_self _ _)))]
    rw [hstep, ih _ (fun q hq => h q (List.mem_cons_of_mem p hq))]
    simp

theorem savePromptsData_all_small (l : List Prompt) (storageType : String)
    (h : ∀ p ∈ l, promptJsonBytes p ≤ MAX_PROMPT_SIZE_BYTES) :
    savePromptsData l storageType = ⟨l, storageType, collectTags l, []⟩ := by
  rw [savePromptsData, savePartition, saveFold_all_small l ⟨[], [], []⟩ h]
  simp

theorem loadStorageType_ne_empty (st : StoredState) : loadStorageType st ≠ "" := by
  rw [loadStorageType]
  by_cases h : st.storageType = ""
  · rw [if_pos h]
    decide
  · rw [if_neg h]
    exact h

/-- Claim C9 as amended: for collections and import arrays in which no
record carries a `chunkCount` and no record's serialized size exceeds the
chunking threshold (so no record is chunked or dropped on save), importing
the same array twice in a row leaves exactly the persisted collection of a
single import: the id-keyed overwrite is idempotent. -/
theorem import_merge_idempotent_small (es : List Prompt) (st : StoredState)
    (hst : ∀ p ∈ st.prompts, p.chunkCount = none ∧
      promptJsonBytes p ≤ MAX_PROMPT_SIZE_BYTES)
    (hes : ∀ p ∈ es, p.chunkCount = none ∧
      promptJsonBytes p ≤ MAX_PROMPT_SIZE_BYTES) :
    (importRun (ImportInput.array es)
        ((importRun (ImportInput.array es) st).2.1)).2.1 =
      (importRun (ImportInput.array es) st).2.1 := by
  cases hfind : es.findIdx? invalidElem with
  | some i => simp [importRun, hfind]
  | none =>
    have hcur1 : processPromptsPure st.prompts st.chunks = st.prompts :=
      processPromptsPure_id _ _ (fun p hp => (hst p hp).1)
    have hmerge_small : ∀ p ∈ importMerge st.prompts es,
        p.chunkCount = none ∧ promptJsonBytes p ≤ MAX_PROMPT_SIZE_BYTES := by
      intro p hp
      rcases mem_importMerge _ _ p hp with h | h
      exacts [hst p h, hes p h]
    have hsave1 : savePromptsData (importMerge st.prompts es) (loadStorageType st) =
        ⟨importMerge st.prompts es, loadStorageType st,
          collectTags (importMerge st.prompts es), []⟩ :=
      savePromptsData_all_small _ _ (fun p hp => (hmerge_small p hp).2)
    have hrun1 : (importRun (ImportInput.array es) st).2.1 =
        ⟨importMerge st.prompts es, loadStorageType st,
          collectTags (importMerge st.prompts es), []⟩ := by
      simp [importRun, hfind, hcur1, hsave1]
    rw [hrun1]
    have hT : loadStorageType
        ⟨importMerge st.prompts es, loadStorageType st,
          collectTags (importMerge st.prompts es), []⟩ = loadStorageType st := by
      rw [loadStorageType]
      exact if_neg (loadStorageType_ne_empty st)
    have hcur2 : processPromptsPure (importMerge st.prompts es) [] =
        importMerge st.prompts es :=
      processPromptsPure_id _ _ (fun p hp => (hmerge_small p hp).1)
    simp [importRun, hfind, hcur2, hT, importMerge_idem, hsave1]

/-- Witness for C9 as amended: a small concrete collection and import
array. -/
theorem import_merge_idempotent_small_witness :
    (importRun (ImportInput.array [⟨"a", "t", some "new", none, 0, 0, none, none⟩])
        ((importRun (ImportInput.array [⟨"a", "t", some "new", none, 0, 0, none, none⟩])
          ⟨[⟨"a", "t", some "old", none, 0, 0, none, none⟩, smallPrompt],
            "local", ["Y"], []⟩).2.1)).2.1 =
      (importRun (ImportInput.array [⟨"a", "t", some "new", none, 0, 0, none, none⟩])
        ⟨[⟨"a", "t", some "old", none, 0, 0, none, none⟩, smallPrompt],
          "local", ["Y"], []⟩).2.1 :=
  import_merge_idempotent_small
    [⟨"a", "t", some "new", none, 0, 0, none, none⟩]
    ⟨[⟨"a", "t", some "old", none, 0, 0, none, none⟩, smallPrompt], "local", ["Y"], []⟩
    (by decide) (by decide)

theorem promptJsonBytes_cexBig : promptJsonBytes cexBig = 7376 := by
  simp [promptJsonBytes, promptFieldBytes, cexBig, jsonStringBytes,
    jsonArrayBytes, natBytes, sum_jsonEscapedBytes_manyA]
  decide

theorem cexBig_gate : MAX_PROMPT_SIZE_BYTES < promptJsonBytes cexBig := by
  rw [promptJsonBytes_cexBig]
  decide

theorem chunkPrompt_cexBig : chunkPrompt cexBig = (some cexShell, ["x"]) := by
  rw [chunkPrompt_over cexBig "x" rfl cexBig_gate, promptJsonBytes_cexBig]
  rfl

theorem saveStep_cexBig (acc : SaveAcc) :
    saveStep acc cexBig =
      { acc with
          meta := acc.meta ++ [cexShell],
          chunks := assocSet acc.chunks "b" ["x"] } := by
  rw [saveStep, if_pos cexBig_gate, chunkPrompt_cexBig]
  rfl

theorem saveStep_cexSmall (acc : SaveAcc) :
    saveStep acc cexSmall = { acc with regular := acc.regular ++ [cexSmall] } := by
  rw [saveStep, if_neg (by decide)]

theorem savePartition_cex1 :
    savePartition [cexBig, cexSmall] = ⟨[cexSmall], [cexShell], [("b", ["x"])]⟩ := by
  rw [savePartition, List.foldl_cons, saveStep_cexBig, List.foldl_cons,
    saveStep_cexSmall, List.foldl_nil]
  rfl

theorem savePartition_cex2 :
    savePartition [cexSmall, cexBig] = ⟨[cexSmall], [cexShell], [("b", ["x"])]⟩ := by
  rw [savePartition, List.foldl_cons, saveStep_cexSmall, List.foldl_cons,
    saveStep_cexBig, List.foldl_nil]
  rfl

theorem importRun_cex1 :
    (importRun (ImportInput.array [cexBig, cexSmall]) ⟨[], "local", [], []⟩).2.1 =
      ⟨[cexSmall, cexShell], "local", ["X", "Y"], [("b", ["x"])]⟩ := by
  have hfind : ([cexBig, cexSmall].findIdx? invalidElem) = none := by decide
  have hmerge : importMerge [] [cexBig, cexSmall] = [cexBig, cexSmall] := by
    simp [importMerge, assocSet, cexBig, cexSmall]
  have htags : collectTags [cexBig, cexSmall] = ["X", "Y"] := by decide
  simp only [importRun, hfind]
  rw [show processPromptsPure ([] : List Prompt) [] = [] from rfl, hmerge,
    savePromptsData, savePartition_cex1,
    show loadStorageType ⟨[], "local", [], []⟩ = "local" from rfl, htags]
  rfl

theorem importRun_cex2 :
    (importRun (ImportInput.array [cexBig, cexSmall])
        ⟨[cexSmall, cexShell], "local", ["X", "Y"], [("b", ["x"])]⟩).2.1 =
      ⟨[cexSmall, cexShell], "local", ["Y", "X"], [("b", ["x"])]⟩ := by
  have hfind : ([cexBig, cexSmall].findIdx? invalidElem) = none := by decide
  have hload : processPromptsPure [cexSmall, cexShell] [("b", ["x"])] =
      [cexSmall, cexBig] := by
    rfl
  have hmerge : importMerge [cexSmall, cexBig] [cexBig, cexSmall] =
      [cexSmall, cexBig] := by
    simp [importMerge, assocSet, cexBig, cexSmall]
  have htags : collectTags [cexSmall, cexBig] = ["Y", "X"] := by decide
  simp only [importRun, hfind]
  rw [hload, hmerge, savePromptsData, savePartition_cex2,
    show loadStorageType ⟨[cexSmall, cexShell], "local", ["X", "Y"],
      [("b", ["x"])]⟩ = "local" from rfl, htags]
  rfl

/-- Counterexample for C9: importing the same valid array twice is not
always persisted-state idempotent.  With an oversized record followed by a
small one, the first import persists the small record before the shell, so
the second import rebuilds the tag index from the reordered collection and
persists a different tag list (`["Y", "X"]` instead of `["X", "Y"]`). -/
theorem import_twice_not_identical_cex :
    (importRun (ImportInput.array [cexBig, cexSmall])
        ((importRun (ImportInput.array [cexBig, cexSmall])
          ⟨[], "local", [], []⟩).2.1)).2.1 ≠
      (importRun (ImportInput.array [cexBig, cexSmall]) ⟨[], "local", [], []⟩).2.1 := by
  rw [importRun_cex1, importRun_cex2]
  intro h
  have ht := congrArg StoredState.tags h
  simp at ht

end PromptManager
